import Mathlib

/-!
Verification of `tools/log_viewer.py`: a shallow embedding of the hash-aliasing
engine, the include/exclude filter, the interactive viewport state machine and
the tail-mode pipeline, together with theorems settling the specified
properties.

Lines of text are modelled as `List Char`.  Python's `\d` on `str` patterns
matches every Unicode decimal digit (category `Nd`), not only ASCII; it is
modelled by `pyDigit`, built from the `Nd` code point ranges of the Unicode
14.0 database that the tool's CPython ships.  A compiled regular expression
is modelled by its observable
capability in the code, the boolean `pattern.search(line) is not None`, i.e. a
function `Line → Bool`.
-/

namespace LogViewer

abbrev Line := List Char

/-- `BASE_NAMES` from the source: the curated first-tier alias list. -/
def BASE_NAMES : List String :=
  ["Alice", "Bob", "Carol", "Dave", "Eve", "Frank", "Grace", "Heidi",
   "Ivan", "Judy", "Mallory", "Niaj", "Olivia", "Peggy", "Rupert", "Sybil",
   "Trent", "Uma", "Victor", "Walter", "Xavier", "Yvonne", "Zara"]

/-- `NATO_NAMES` from the source: the phonetic second-tier alias list. -/
def NATO_NAMES : List String :=
  ["Alpha", "Bravo", "Charlie", "Delta", "Echo", "Foxtrot", "Golf", "Hotel",
   "India", "Juliet", "Kilo", "Lima", "Mike", "November", "Oscar", "Papa",
   "Quebec", "Romeo", "Sierra", "Tango", "Uniform", "Victor", "Whiskey",
   "Xray", "Yankee", "Zulu"]

/-- The `n`-th name yielded by `build_name_generator` (0-based): first the
`BASE_NAMES`, then the `NATO_NAMES`, then `Name1`, `Name2`, …. -/
def nameAt (n : Nat) : String :=
  if n < BASE_NAMES.length then BASE_NAMES.getD n ""
  else if n - BASE_NAMES.length < NATO_NAMES.length then
    NATO_NAMES.getD (n - BASE_NAMES.length) ""
  else "Name" ++ Nat.repr (n - BASE_NAMES.length - NATO_NAMES.length + 1)

/-- The alias table: the insertion-ordered dict `aliases` of the source
(`hash value digit string ↦ assigned name`). -/
structure AliasState where
  table : List (Line × String)
deriving Repr, DecidableEq

def AliasState.empty : AliasState := ⟨[]⟩

/-- Lookup in the insertion-ordered association list. -/
def lookupAlias : List (Line × String) → Line → Option String
  | [], _ => none
  | (k, v) :: rest, h => if k = h then some v else lookupAlias rest h

/-- `alias_for` from the source: return the existing alias of `h`, or assign
the next name of the supply sequence (the dict has `table.length` entries, so
the next generator output is `nameAt table.length`). -/
def alias_for (st : AliasState) (h : Line) : String × AliasState :=
  match lookupAlias st.table h with
  | some n => (n, st)
  | none => (nameAt st.table.length, ⟨st.table ++ [(h, nameAt st.table.length)]⟩)

/-- `matchLit pat l` returns `some rest` when `l = pat ++ rest`. -/
def matchLit : Line → Line → Option Line
  | [], l => some l
  | _ :: _, [] => none
  | p :: ps, c :: cs => if c = p then matchLit ps cs else none

theorem matchLit_length {pat l rest : Line} (h : matchLit pat l = some rest) :
    l.length = pat.length + rest.length := by
  induction pat generalizing l with
  | nil => simp [matchLit] at h; simp [h]
  | cons p ps ih =>
    cases l with
    | nil => simp [matchLit] at h
    | cons c cs =>
      simp only [matchLit] at h
      split at h
      · have := ih h
        simp [List.length_cons, this]
        omega
      · exact absurd h (by simp)

theorem matchLit_eq {pat l rest : Line} (h : matchLit pat l = some rest) :
    l = pat ++ rest := by
  induction pat generalizing l with
  | nil => simp [matchLit] at h; simp [h]
  | cons p ps ih =>
    cases l with
    | nil => simp [matchLit] at h
    | cons c cs =>
      simp only [matchLit] at h
      split at h
      · rename_i hc; subst hc; simp [ih h]
      · exact absurd h (by simp)

theorem length_dropWhile_le (p : Char → Bool) (l : Line) :
    (l.dropWhile p).length ≤ l.length := by
  induction l with
  | nil => simp [List.dropWhile]
  | cons c rest ih =>
    simp only [List.dropWhile]
    split
    · exact Nat.le_trans ih (Nat.le_succ _)
    · simp

/-- The `Nd` (decimal digit) code point ranges of the Unicode 14.0 character
database (the one shipped by the CPython the tool runs on), with the ASCII
range listed first. -/
def ndRanges : List (Nat × Nat) :=
  [(0x30, 0x39), (0x660, 0x669), (0x6f0, 0x6f9), (0x7c0, 0x7c9),
   (0x966, 0x96f), (0x9e6, 0x9ef), (0xa66, 0xa6f), (0xae6, 0xaef),
   (0xb66, 0xb6f), (0xbe6, 0xbef), (0xc66, 0xc6f), (0xce6, 0xcef),
   (0xd66, 0xd6f), (0xde6, 0xdef), (0xe50, 0xe59), (0xed0, 0xed9),
   (0xf20, 0xf29), (0x1040, 0x1049), (0x1090, 0x1099), (0x17e0, 0x17e9),
   (0x1810, 0x1819), (0x1946, 0x194f), (0x19d0, 0x19d9), (0x1a80, 0x1a89),
   (0x1a90, 0x1a99), (0x1b50, 0x1b59), (0x1bb0, 0x1bb9), (0x1c40, 0x1c49),
   (0x1c50, 0x1c59), (0xa620, 0xa629), (0xa8d0, 0xa8d9), (0xa900, 0xa909),
   (0xa9d0, 0xa9d9), (0xa9f0, 0xa9f9), (0xaa50, 0xaa59), (0xabf0, 0xabf9),
   (0xff10, 0xff19), (0x104a0, 0x104a9), (0x10d30, 0x10d39),
   (0x11066, 0x1106f), (0x110f0, 0x110f9), (0x11136, 0x1113f),
   (0x111d0, 0x111d9), (0x112f0, 0x112f9), (0x11450, 0x11459),
   (0x114d0, 0x114d9), (0x11650, 0x11659), (0x116c0, 0x116c9),
   (0x11730, 0x11739), (0x118e0, 0x118e9), (0x11950, 0x11959),
   (0x11c50, 0x11c59), (0x11d50, 0x11d59), (0x11da0, 0x11da9),
   (0x16a60, 0x16a69), (0x16ac0, 0x16ac9), (0x16b50, 0x16b59),
   (0x1d7ce, 0x1d7ff), (0x1e140, 0x1e149), (0x1e2f0, 0x1e2f9),
   (0x1e950, 0x1e959), (0x1fbf0, 0x1fbf9)]

/-- The character class of Python's `\d` on `str` patterns: any Unicode
decimal digit (category `Nd`). -/
def pyDigit (c : Char) : Bool :=
  ndRanges.any fun p => decide (p.1 ≤ c.toNat) && decide (c.toNat ≤ p.2)

/-- The substitution pass of `BRACKET_HASH_RE.sub`, structurally recursive on
a step bound `fuel`: scan left to right; at a literal `[` whose following
maximal decimal-digit run (`pyDigit`, Python's `\d`) has length ≥ 5 and is closed by `]`, replace the whole
match by `[ <name> ]` (name via `alias_for`) and continue after it; otherwise
copy one character and continue.  Every step consumes at least one input
character, so any `fuel ≥ length` yields the scan's value
(`bracketSubF_congr`); the exhausted-fuel branch is never reached then. -/
def bracketSubF : Nat → AliasState → Line → Line × AliasState
  | 0, st, l => (l, st)
  | _ + 1, st, [] => ([], st)
  | fuel + 1, st, c :: rest =>
    if c = '[' then
      match rest.dropWhile pyDigit with
      | ']' :: rest3 =>
        if 5 ≤ (rest.takeWhile pyDigit).length then
          let (name, st1) := alias_for st (rest.takeWhile pyDigit)
          let (tl, st2) := bracketSubF fuel st1 rest3
          ('[' :: ' ' :: (name.data ++ ' ' :: ']' :: tl), st2)
        else
          let (tl, st1) := bracketSubF fuel st rest
          (c :: tl, st1)
      | _ =>
        let (tl, st1) := bracketSubF fuel st rest
        (c :: tl, st1)
    else
      let (tl, st1) := bracketSubF fuel st rest
      (c :: tl, st1)

/-- The bracket substitution pass of the source (Python's scanner also
advances one character on a failed match attempt; since a digit cannot open a
match, the two scans visit the same match positions). -/
def bracketSub (st : AliasState) (l : Line) : Line × AliasState :=
  bracketSubF l.length st l

/-- The literal token `HashCode=`. -/
def hashCodeLit : Line := ['H', 'a', 's', 'h', 'C', 'o', 'd', 'e', '=']

/-- The substitution pass of `INLINE_HASH_RE.sub`, structurally recursive on a
step bound `fuel`: at the literal `HashCode=` followed by a maximal
decimal-digit run (`pyDigit`) of length ≥ 5, replace the match by `HashCode=<name>` and
continue after the digits; otherwise copy one character and continue. -/
def inlineSubF : Nat → AliasState → Line → Line × AliasState
  | 0, st, l => (l, st)
  | _ + 1, st, [] => ([], st)
  | fuel + 1, st, c :: rest =>
    match matchLit hashCodeLit (c :: rest) with
    | some rest1 =>
      if 5 ≤ (rest1.takeWhile pyDigit).length then
        let (name, st1) := alias_for st (rest1.takeWhile pyDigit)
        let (tl, st2) := inlineSubF fuel st1 (rest1.dropWhile pyDigit)
        (hashCodeLit ++ (name.data ++ tl), st2)
      else
        let (tl, st1) := inlineSubF fuel st rest
        (c :: tl, st1)
    | none =>
      let (tl, st1) := inlineSubF fuel st rest
      (c :: tl, st1)

/-- The inline substitution pass of the source (the literal contains a single
`H`, so the one-character advance visits the same match positions as Python's
scanner). -/
def inlineSub (st : AliasState) (l : Line) : Line × AliasState :=
  inlineSubF l.length st l

/-- One line through the transformer: the body of the loop in
`preprocess_lines` (and the `process` closure of `make_line_processor`):
the bracket pattern is fully substituted first, then the inline pattern is
substituted on the updated line. -/
def process (st : AliasState) (line : Line) : Line × AliasState :=
  let (u, st1) := bracketSub st line
  inlineSub st1 u

/-- `preprocess_lines` threading an explicit alias state. -/
def preprocessFrom (st : AliasState) : List Line → List Line × AliasState
  | [] => ([], st)
  | l :: ls =>
    let (p, st1) := process st l
    let (ps, st2) := preprocessFrom st1 ls
    (p :: ps, st2)

/-- `preprocess_lines` from the source: fresh alias table, fresh name
generator, each line through both substitution passes in order. -/
def preprocess_lines (lines : List Line) : List Line :=
  (preprocessFrom AliasState.empty lines).1

/-- The alias table after `preprocess_lines` has consumed all lines. -/
def finalState (lines : List Line) : AliasState :=
  (preprocessFrom AliasState.empty lines).2

/-- A compiled regular expression, abstracted by the only capability the code
uses: whether `pattern.search(line)` finds a match anywhere in the line. -/
abbrev SearchFun := Line → Bool

/-- The search function of the default include pattern `.*`: that regex
matches the empty string at position 0, so its search succeeds on every
line. -/
def defaultIncludeSearch : SearchFun := fun _ => true

/-- The per-line exclusion test of the source:
`exclude_pattern.search(line) is not None if exclude_pattern else False`. -/
def excMatch (excS : Option SearchFun) (l : Line) : Bool :=
  match excS with
  | some e => e l
  | none => false

/-- `LineRecord` from the source. -/
structure LineRecord where
  source_line_number : Nat
  text : Line
  included : Bool
deriving Repr, DecidableEq

/-- Python's `line.rstrip("\n")`: remove every trailing newline character. -/
def rstripNl (l : Line) : Line :=
  (l.reverse.dropWhile (fun c => c = '\n')).reverse

/-- `build_records` from the source: number the processed lines from 1; the
record text is the line with trailing newlines stripped; `included` is the
include/exclude decision evaluated on the unstripped line. -/
def build_records (processed : List Line) (incS : SearchFun)
    (excS : Option SearchFun) : List LineRecord :=
  processed.enum.map fun p =>
    { source_line_number := p.1 + 1
      text := rstripNl p.2
      included := incS p.2 && !excMatch excS p.2 }

/-- `filter_lines` from the source: keep exactly the processed lines that pass
the include/exclude decision. -/
def filter_lines (processed : List Line) (incS : SearchFun)
    (excS : Option SearchFun) : List Line :=
  processed.filter fun l => incS l && !excMatch excS l

/-- The placeholder record substituted when no line is visible. -/
def placeholderRecord : LineRecord :=
  ⟨0, "No lines matched the current filter.".data, true⟩

/-- `visible_records` from `run_viewer`: the full record list when `show_all`
is on, else only the included records. -/
def visible_records (records : List LineRecord) (showAll : Bool) :
    List LineRecord :=
  if showAll then records else records.filter (·.included)

/-- The sequence the controller actually indexes into: `visible_records`, or
the single placeholder row when that is empty (`if not items: items = [...]`,
and `visible_records() or [...]` in the toggle branch). -/
def itemsOf (records : List LineRecord) (showAll : Bool) : List LineRecord :=
  match visible_records records showAll with
  | [] => [placeholderRecord]
  | r :: rest => r :: rest

/-- The viewport state of `run_viewer`: the `show_all`, `cursor` and `top`
variables. -/
structure ViewState where
  showAll : Bool
  cursor : Nat
  top : Nat
deriving Repr, DecidableEq

/-- The re-clamp and scroll recomputation at the top of the `run_viewer` loop:
`cursor = max(0, min(cursor, len(items) - 1))`, then
`if cursor < top: top = cursor`, then
`if cursor >= top + body_height: top = cursor - body_height + 1`. -/
def clampScroll (records : List LineRecord) (bodyHeight : Nat)
    (s : ViewState) : ViewState :=
  let items := itemsOf records s.showAll
  let cursor := min s.cursor (items.length - 1)
  let top1 := if cursor < s.top then cursor else s.top
  let top2 := if top1 + bodyHeight ≤ cursor then cursor + 1 - bodyHeight else top1
  { s with cursor := cursor, top := top2 }

/-- The key events that mutate the viewport state (`q` ends the loop and is
not a state transition). -/
inductive Key where
  | up
  | down
  | pageUp
  | pageDown
  | toggle
deriving Repr, DecidableEq

/-- The index of the first record whose source line number is ≥ `target`
(the `for … else` search of the toggle branch). -/
def firstGE (target : Nat) : List LineRecord → Option Nat
  | [] => none
  | r :: rest =>
    if target ≤ r.source_line_number then some 0
    else (firstGE target rest).map (· + 1)

/-- The key dispatch of `run_viewer` (executed on a state the loop has already
clamped, so `items[cursor]` is in range; `getD` supplies a defined value
otherwise).  `max(0, n - k)` on Python ints is `n - k` on `Nat`. -/
def applyKey (records : List LineRecord) (bodyHeight : Nat) (s : ViewState)
    (k : Key) : ViewState :=
  let items := itemsOf records s.showAll
  match k with
  | .up => { s with cursor := s.cursor - 1 }
  | .down => { s with cursor := min (items.length - 1) (s.cursor + 1) }
  | .pageUp => { s with cursor := s.cursor - bodyHeight }
  | .pageDown => { s with cursor := min (items.length - 1) (s.cursor + bodyHeight) }
  | .toggle =>
    let current := (items.getD s.cursor placeholderRecord).source_line_number
    let newShow := !s.showAll
    let newItems := itemsOf records newShow
    let newCursor :=
      match firstGE current newItems with
      | some i => i
      | none => newItems.length - 1
    { s with showAll := newShow, cursor := newCursor }

/-- One observable transition of the `run_viewer` loop: the state is clamped
at the top of the loop before the key is read, the key is applied, and the
next loop iteration re-clamps before anything is displayed.  `clampScroll` is
idempotent, so folding `step` over a key sequence reproduces the loop. -/
def step (records : List LineRecord) (bodyHeight : Nat) (s : ViewState)
    (k : Key) : ViewState :=
  clampScroll records bodyHeight
    (applyKey records bodyHeight (clampScroll records bodyHeight s) k)

/-- The viewport invariant of the spec: the cursor stays inside the indexed
sequence and the scroll window keeps the cursor on screen. -/
def viewInv (records : List LineRecord) (bodyHeight : Nat) (s : ViewState) :
    Prop :=
  s.cursor ≤ (itemsOf records s.showAll).length - 1 ∧
    s.top ≤ s.cursor ∧ s.cursor < s.top + bodyHeight

/-- Python's universal-newline translation applied by text-mode reading
(both `Path.read_text` in batch mode and `readline` in tail mode):
`\r\n` and lone `\r` become `\n`. -/
def universalNewlines : Line → Line
  | [] => []
  | '\r' :: '\n' :: rest => '\n' :: universalNewlines rest
  | '\r' :: rest => '\n' :: universalNewlines rest
  | c :: rest => c :: universalNewlines rest

/-- The characters at which `str.splitlines` breaks a line. -/
def lineBreakChar (c : Char) : Bool :=
  c = '\n' || c = '\r' || c = '\x0b' || c = '\x0c' ||
    c = '\x1c' || c = '\x1d' || c = '\x1e' || c = '\x85' ||
    c = '\u2028' || c = '\u2029'

/-- Python's `str.splitlines(keepends=True)` (`acc` holds the reversed current
line), structurally recursive on a step bound `fuel` (each step consumes at
least one character, so any `fuel ≥ length` yields the scan's value): break
after `\r\n` or after any single line-break character, keeping the
terminator; a final unterminated chunk forms a last line. -/
def splitlinesKeependsF : Nat → Line → Line → List Line
  | 0, acc, _ => if acc = [] then [] else [acc.reverse]
  | _ + 1, acc, [] => if acc = [] then [] else [acc.reverse]
  | fuel + 1, acc, c :: rest =>
    if c = '\r' then
      match rest with
      | '\n' :: rest2 =>
        (acc.reverse ++ ['\r', '\n']) :: splitlinesKeependsF fuel [] rest2
      | _ => (acc.reverse ++ [c]) :: splitlinesKeependsF fuel [] rest
    else if lineBreakChar c then
      (acc.reverse ++ [c]) :: splitlinesKeependsF fuel [] rest
    else splitlinesKeependsF fuel (c :: acc) rest

/-- `str.splitlines(keepends=True)` itself. -/
def splitlinesKeepends (acc : Line) (l : Line) : List Line :=
  splitlinesKeependsF l.length acc l

/-- Line splitting as `readline` performs it on a universal-newline text
stream: break only after `\n`; a final unterminated chunk forms a last
line. -/
def splitAfterNl (acc : Line) : Line → List Line
  | [] => if acc = [] then [] else [acc.reverse]
  | c :: rest =>
    if c = '\n' then (acc.reverse ++ [c]) :: splitAfterNl [] rest
    else splitAfterNl (c :: acc) rest

/-- The per-line loop body of `stream_tail` iterated to end of file: each line
read goes through the session's line processor (shared alias state), and is
emitted exactly when it passes the include/exclude decision. -/
def tailRun (incS : SearchFun) (excS : Option SearchFun) (st : AliasState) :
    List Line → List Line
  | [] => []
  | l :: ls =>
    let (p, st1) := process st l
    if incS p && !excMatch excS p then p :: tailRun incS excS st1 ls
    else tailRun incS excS st1 ls

/-- The ordered sequence of lines batch output mode (`main` with `--output`)
writes for a file with the given decoded contents: universal-newline text
read, `splitlines(keepends=True)`, `preprocess_lines`, `filter_lines`. -/
def batchWritten (contents : Line) (incS : SearchFun)
    (excS : Option SearchFun) : List Line :=
  filter_lines (preprocess_lines (splitlinesKeepends [] (universalNewlines contents)))
    incS excS

/-- The ordered sequence of lines tail mode writes for the same file, stopped
after reaching end of file: `readline`-split universal-newline text through
the stream loop with a fresh alias state. -/
def tailWritten (contents : Line) (incS : SearchFun)
    (excS : Option SearchFun) : List Line :=
  tailRun incS excS AliasState.empty (splitAfterNl [] (universalNewlines contents))

/-- The outcome of compiling one regex option in `main`. -/
inductive RegexCompile where
  | ok (search : SearchFun)
  | err (msg : String)

/-- The configuration `main` dispatches on, with I/O abstracted: the compile
outcomes of the two pattern options, the mode flags, and whether the input
path exists. -/
structure MainConfig where
  includeArg : RegexCompile
  excludeArg : Option RegexCompile
  tail : Bool
  logFileIsStdin : Bool
  fileFound : Bool
  pathName : String

/-- The exit status and the message the program itself prints, for one `main`
invocation: pattern compilation is checked first (before any line is read),
then the tail/stdin conflict.  In tail mode, `stream_tail` catches only
`KeyboardInterrupt` (returning `0`); opening a missing path raises
`FileNotFoundError`, which escapes `main`, so the interpreter exits with
status `1` printing a traceback — the program prints no message of its own
(`none`).  In batch mode a missing path is caught and reported
(`File not found: …`, status `1`); batch output and the interactive viewer
(ended by the quit key) fall through to `return 0`. -/
def mainRun (cfg : MainConfig) : Nat × Option String :=
  match cfg.includeArg with
  | .err e => (2, some ("Invalid --include regex: " ++ e))
  | .ok _ =>
    match cfg.excludeArg with
    | some (.err e) => (2, some ("Invalid --exclude regex: " ++ e))
    | _ =>
      if cfg.tail then
        if cfg.logFileIsStdin then
          (2, some "--tail requires a file path, not stdin ('-').")
        else if cfg.fileFound then (0, none)
        else (1, none)
      else if cfg.logFileIsStdin then (0, none)
      else if cfg.fileFound then (0, none)
      else (1, some ("File not found: " ++ cfg.pathName))

/-! Unfolding equations and fuel adequacy for the substitution scanners. -/

theorem bracketSubF_succ_hit (fuel : Nat) (st : AliasState) (rest rest3 : List Char)
    (hdrop : List.dropWhile pyDigit rest = ']' :: rest3)
    (hlen : 5 ≤ (List.takeWhile pyDigit rest).length) :
    bracketSubF (fuel + 1) st ('[' :: rest) =
      ('[' :: ' ' :: ((alias_for st (rest.takeWhile pyDigit)).1.data ++
          ' ' :: ']' ::
            (bracketSubF fuel (alias_for st (rest.takeWhile pyDigit)).2 rest3).1),
        (bracketSubF fuel (alias_for st (rest.takeWhile pyDigit)).2 rest3).2) := by
  simp only [bracketSubF, if_true]
  split
  next rest3' hm =>
    rw [hdrop] at hm
    cases hm
    simp [hlen]
  next hne => exact absurd hdrop fun h => hne rest3 h

theorem bracketSubF_succ_shortRun (fuel : Nat) (st : AliasState) (rest rest3 : List Char)
    (hdrop : List.dropWhile pyDigit rest = ']' :: rest3)
    (hlen : ¬ 5 ≤ (List.takeWhile pyDigit rest).length) :
    bracketSubF (fuel + 1) st ('[' :: rest) =
      ('[' :: (bracketSubF fuel st rest).1, (bracketSubF fuel st rest).2) := by
  simp only [bracketSubF, if_true]
  split
  next rest3' hm =>
    rw [hdrop] at hm
    cases hm
    simp [hlen]
  next hne => exact absurd hdrop fun h => hne rest3 h

theorem bracketSubF_succ_noClose (fuel : Nat) (st : AliasState) (rest : List Char)
    (hne : ∀ rest3, List.dropWhile pyDigit rest = ']' :: rest3 → False) :
    bracketSubF (fuel + 1) st ('[' :: rest) =
      ('[' :: (bracketSubF fuel st rest).1, (bracketSubF fuel st rest).2) := by
  simp only [bracketSubF, if_true]

theorem bracketSubF_succ_skip (fuel : Nat) (st : AliasState) (c : Char)
    (rest : List Char) (hc : ¬ c = '[') :
    bracketSubF (fuel + 1) st (c :: rest) =
      (c :: (bracketSubF fuel st rest).1, (bracketSubF fuel st rest).2) := by
  simp only [bracketSubF]
  rw [if_neg hc]

theorem length_rest3_le {rest rest3 : List Char}
    (hdrop : List.dropWhile pyDigit rest = ']' :: rest3) :
    rest3.length < rest.length + 1 := by
  have h1 := length_dropWhile_le pyDigit rest
  rw [hdrop] at h1
  simp at h1
  omega

theorem bracketSubF_congr :
    ∀ (fuel fuel' : Nat) (st : AliasState) (l : Line),
      l.length ≤ fuel → l.length ≤ fuel' →
      bracketSubF fuel st l = bracketSubF fuel' st l := by
  intro fuel
  induction fuel with
  | zero =>
    intro fuel' st l h h'
    have hl : l = [] := List.eq_nil_of_length_eq_zero (Nat.le_zero.mp h)
    subst hl
    cases fuel' <;> rfl
  | succ n ih =>
    intro fuel' st l h h'
    cases l with
    | nil => cases fuel' <;> rfl
    | cons c rest =>
      cases fuel' with
      | zero => simp at h'
      | succ k =>
        have hr : rest.length ≤ n := by simp at h; omega
        have hr' : rest.length ≤ k := by simp at h'; omega
        by_cases hc : c = '['
        · subst hc
          cases hdrop : rest.dropWhile pyDigit with
          | nil =>
            have hne : ∀ rest3, List.dropWhile pyDigit rest = ']' :: rest3 → False := by
              intro r3 hr3; rw [hdrop] at hr3; cases hr3
            rw [bracketSubF_succ_noClose n st rest hne,
              bracketSubF_succ_noClose k st rest hne, ih k st rest hr hr']
          | cons c2 rest3 =>
            by_cases hc2 : c2 = ']'
            · subst hc2
              by_cases hlen : 5 ≤ (rest.takeWhile pyDigit).length
              · have h3 := length_rest3_le hdrop
                rw [bracketSubF_succ_hit n st rest rest3 hdrop hlen,
                  bracketSubF_succ_hit k st rest rest3 hdrop hlen,
                  ih k _ rest3 (by omega) (by omega)]
              · rw [bracketSubF_succ_shortRun n st rest rest3 hdrop hlen,
                  bracketSubF_succ_shortRun k st rest rest3 hdrop hlen,
                  ih k st rest hr hr']
            · have hne : ∀ r3, List.dropWhile pyDigit rest = ']' :: r3 → False := by
                intro r3 hr3
                rw [hdrop] at hr3
                injection hr3 with h1 h2
                exact hc2 h1
              rw [bracketSubF_succ_noClose n st rest hne,
                bracketSubF_succ_noClose k st rest hne, ih k st rest hr hr']
        · rw [bracketSubF_succ_skip n st c rest hc,
            bracketSubF_succ_skip k st c rest hc, ih k st rest hr hr']

theorem bracketSub_nil (st : AliasState) : bracketSub st [] = ([], st) := rfl

theorem bracketSub_hit (st : AliasState) (rest rest3 : List Char)
    (hdrop : List.dropWhile pyDigit rest = ']' :: rest3)
    (hlen : 5 ≤ (List.takeWhile pyDigit rest).length) :
    bracketSub st ('[' :: rest) =
      ('[' :: ' ' :: ((alias_for st (rest.takeWhile pyDigit)).1.data ++
          ' ' :: ']' :: (bracketSub (alias_for st (rest.takeWhile pyDigit)).2 rest3).1),
        (bracketSub (alias_for st (rest.takeWhile pyDigit)).2 rest3).2) := by
  have h3 := length_rest3_le hdrop
  unfold bracketSub
  simp only [List.length_cons]
  rw [bracketSubF_succ_hit rest.length st rest rest3 hdrop hlen,
    bracketSubF_congr rest.length rest3.length _ rest3 (by omega) le_rfl]

theorem bracketSub_shortRun (st : AliasState) (rest rest3 : List Char)
    (hdrop : List.dropWhile pyDigit rest = ']' :: rest3)
    (hlen : ¬ 5 ≤ (List.takeWhile pyDigit rest).length) :
    bracketSub st ('[' :: rest) =
      ('[' :: (bracketSub st rest).1, (bracketSub st rest).2) := by
  unfold bracketSub
  simp only [List.length_cons]
  rw [bracketSubF_succ_shortRun rest.length st rest rest3 hdrop hlen]

theorem bracketSub_noClose (st : AliasState) (rest : List Char)
    (hne : ∀ rest3, List.dropWhile pyDigit rest = ']' :: rest3 → False) :
    bracketSub st ('[' :: rest) =
      ('[' :: (bracketSub st rest).1, (bracketSub st rest).2) := by
  unfold bracketSub
  simp only [List.length_cons]
  rw [bracketSubF_succ_noClose rest.length st rest hne]

theorem bracketSub_skip (st : AliasState) (c : Char) (rest : List Char)
    (hc : ¬ c = '[') :
    bracketSub st (c :: rest) =
      (c :: (bracketSub st rest).1, (bracketSub st rest).2) := by
  unfold bracketSub
  simp only [List.length_cons]
  rw [bracketSubF_succ_skip rest.length st c rest hc]

theorem inlineSubF_succ_hit (fuel : Nat) (st : AliasState) (c : Char)
    (rest : List Char) (rest1 : Line)
    (hm : matchLit hashCodeLit (c :: rest) = some rest1)
    (hlen : 5 ≤ (List.takeWhile pyDigit rest1).length) :
    inlineSubF (fuel + 1) st (c :: rest) =
      (hashCodeLit ++ ((alias_for st (rest1.takeWhile pyDigit)).1.data ++
          (inlineSubF fuel (alias_for st (rest1.takeWhile pyDigit)).2
            (rest1.dropWhile pyDigit)).1),
        (inlineSubF fuel (alias_for st (rest1.takeWhile pyDigit)).2
          (rest1.dropWhile pyDigit)).2) := by
  simp only [inlineSubF]
  split
  next rest1' hm' =>
    rw [hm] at hm'
    cases hm'
    simp [hlen]
  next hm' => rw [hm] at hm'; cases hm'

theorem inlineSubF_succ_shortRun (fuel : Nat) (st : AliasState) (c : Char)
    (rest : List Char) (rest1 : Line)
    (hm : matchLit hashCodeLit (c :: rest) = some rest1)
    (hlen : ¬ 5 ≤ (List.takeWhile pyDigit rest1).length) :
    inlineSubF (fuel + 1) st (c :: rest) =
      (c :: (inlineSubF fuel st rest).1, (inlineSubF fuel st rest).2) := by
  simp only [inlineSubF]
  split
  next rest1' hm' =>
    rw [hm] at hm'
    cases hm'
    simp [hlen]
  next hm' => rw [hm] at hm'

theorem inlineSubF_succ_skip (fuel : Nat) (st : AliasState) (c : Char)
    (rest : List Char) (hm : matchLit hashCodeLit (c :: rest) = none) :
    inlineSubF (fuel + 1) st (c :: rest) =
      (c :: (inlineSubF fuel st rest).1, (inlineSubF fuel st rest).2) := by
  simp only [inlineSubF]
  split
  next rest1' hm' => rw [hm] at hm'; cases hm'
  next hm' => rfl

theorem length_inline_rest1 {c : Char} {rest : List Char} {rest1 : Line}
    (hm : matchLit hashCodeLit (c :: rest) = some rest1) :
    rest1.length + 9 = rest.length + 1 := by
  have h1 := matchLit_length hm
  simp [hashCodeLit] at h1
  simp [h1]
  omega

theorem inlineSubF_congr :
    ∀ (fuel fuel' : Nat) (st : AliasState) (l : Line),
      l.length ≤ fuel → l.length ≤ fuel' →
      inlineSubF fuel st l = inlineSubF fuel' st l := by
  intro fuel
  induction fuel with
  | zero =>
    intro fuel' st l h h'
    have hl : l = [] := List.eq_nil_of_length_eq_zero (Nat.le_zero.mp h)
    subst hl
    cases fuel' <;> rfl
  | succ n ih =>
    intro fuel' st l h h'
    cases l with
    | nil => cases fuel' <;> rfl
    | cons c rest =>
      cases fuel' with
      | zero => simp at h'
      | succ k =>
        have hr : rest.length ≤ n := by simp at h; omega
        have hr' : rest.length ≤ k := by simp at h'; omega
        cases hm : matchLit hashCodeLit (c :: rest) with
        | none =>
          rw [inlineSubF_succ_skip n st c rest hm,
            inlineSubF_succ_skip k st c rest hm, ih k st rest hr hr']
        | some rest1 =>
          by_cases hlen : 5 ≤ (rest1.takeWhile pyDigit).length
          · have h9 := length_inline_rest1 hm
            have hd : (rest1.dropWhile pyDigit).length ≤ rest1.length :=
              length_dropWhile_le _ _
            rw [inlineSubF_succ_hit n st c rest rest1 hm hlen,
              inlineSubF_succ_hit k st c rest rest1 hm hlen,
              ih k _ (rest1.dropWhile pyDigit) (by omega) (by omega)]
          · rw [inlineSubF_succ_shortRun n st c rest rest1 hm hlen,
              inlineSubF_succ_shortRun k st c rest rest1 hm hlen,
              ih k st rest hr hr']

theorem inlineSub_nil (st : AliasState) : inlineSub st [] = ([], st) := rfl

theorem inlineSub_hit (st : AliasState) (c : Char) (rest : List Char)
    (rest1 : Line) (hm : matchLit hashCodeLit (c :: rest) = some rest1)
    (hlen : 5 ≤ (List.takeWhile pyDigit rest1).length) :
    inlineSub st (c :: rest) =
      (hashCodeLit ++ ((alias_for st (rest1.takeWhile pyDigit)).1.data ++
          (inlineSub (alias_for st (rest1.takeWhile pyDigit)).2
            (rest1.dropWhile pyDigit)).1),
        (inlineSub (alias_for st (rest1.takeWhile pyDigit)).2
          (rest1.dropWhile pyDigit)).2) := by
  have h9 := length_inline_rest1 hm
  have hd : (rest1.dropWhile pyDigit).length ≤ rest1.length :=
    length_dropWhile_le _ _
  unfold inlineSub
  simp only [List.length_cons]
  rw [inlineSubF_succ_hit rest.length st c rest rest1 hm hlen,
    inlineSubF_congr rest.length (rest1.dropWhile pyDigit).length _
      (rest1.dropWhile pyDigit) (by omega) le_rfl]

theorem inlineSub_shortRun (st : AliasState) (c : Char) (rest : List Char)
    (rest1 : Line) (hm : matchLit hashCodeLit (c :: rest) = some rest1)
    (hlen : ¬ 5 ≤ (List.takeWhile pyDigit rest1).length) :
    inlineSub st (c :: rest) =
      (c :: (inlineSub st rest).1, (inlineSub st rest).2) := by
  unfold inlineSub
  simp only [List.length_cons]
  rw [inlineSubF_succ_shortRun rest.length st c rest rest1 hm hlen]

theorem inlineSub_skip (st : AliasState) (c : Char) (rest : List Char)
    (hm : matchLit hashCodeLit (c :: rest) = none) :
    inlineSub st (c :: rest) =
      (c :: (inlineSub st rest).1, (inlineSub st rest).2) := by
  unfold inlineSub
  simp only [List.length_cons]
  rw [inlineSubF_succ_skip rest.length st c rest hm]

/-! The name-supply invariant of the alias table: the k-th entry ever inserted
carries the k-th name of the supply sequence. -/

/-- The table assigns the `k`-th name of the supply sequence to its `k`-th
entry, for every entry. -/
def TableOK (st : AliasState) : Prop :=
  ∀ k, k < st.table.length → (st.table.getD k ([], "")).2 = nameAt k

theorem alias_for_tableOK (st : AliasState) (h : Line) (hok : TableOK st) :
    TableOK (alias_for st h).2 := by
  unfold alias_for
  cases hl : lookupAlias st.table h with
  | some n => exact hok
  | none =>
    intro k hk
    simp only at hk ⊢
    rcases Nat.lt_or_ge k st.table.length with hlt | hge
    · rw [List.getD_append _ _ _ _ hlt]
      exact hok k hlt
    · have : k = st.table.length := by simp at hk; omega
      subst this
      simp [List.getD_eq_getElem]

theorem bracketSubF_tableOK :
    ∀ (fuel : Nat) (st : AliasState) (l : Line), TableOK st →
      TableOK (bracketSubF fuel st l).2 := by
  intro fuel st l
  induction fuel, st, l using bracketSubF.induct with
  | case1 st l => intro h; simpa [bracketSubF] using h
  | case2 fuel st => intro h; simpa [bracketSubF] using h
  | case3 fuel st rest rest3 hdrop hlen name st1 halias tl st2 hrec ih =>
    intro hok
    rw [bracketSubF_succ_hit fuel st rest rest3 hdrop hlen, halias]
    have h1 : TableOK st1 := by
      have := alias_for_tableOK st (rest.takeWhile pyDigit) hok
      rwa [halias] at this
    simpa using ih h1
  | case4 fuel st rest rest3 hdrop hlen tl st2 hrec ih =>
    intro hok
    rw [bracketSubF_succ_shortRun fuel st rest rest3 hdrop hlen]
    simpa using ih hok
  | case5 fuel st rest tl st2 hrec hne ih =>
    intro hok
    rw [bracketSubF_succ_noClose fuel st rest hne]
    simpa using ih hok
  | case6 fuel st c rest hc tl st2 hrec ih =>
    intro hok
    rw [bracketSubF_succ_skip fuel st c rest hc]
    simpa using ih hok

theorem bracketSub_tableOK (st : AliasState) (l : Line) (hok : TableOK st) :
    TableOK (bracketSub st l).2 :=
  bracketSubF_tableOK l.length st l hok

theorem inlineSubF_tableOK :
    ∀ (fuel : Nat) (st : AliasState) (l : Line), TableOK st →
      TableOK (inlineSubF fuel st l).2 := by
  intro fuel st l
  induction fuel, st, l using inlineSubF.induct with
  | case1 st l => intro h; simpa [inlineSubF] using h
  | case2 fuel st => intro h; simpa [inlineSubF] using h
  | case3 fuel st c rest rest1 hm hlen name st1 halias tl st2 hrec ih =>
    intro hok
    rw [inlineSubF_succ_hit fuel st c rest rest1 hm hlen, halias]
    have h1 : TableOK st1 := by
      have := alias_for_tableOK st (rest1.takeWhile pyDigit) hok
      rwa [halias] at this
    simpa using ih h1
  | case4 fuel st c rest rest1 hm hlen tl st2 hrec ih =>
    intro hok
    rw [inlineSubF_succ_shortRun fuel st c rest rest1 hm hlen]
    simpa using ih hok
  | case5 fuel st c rest hm tl st2 hrec ih =>
    intro hok
    rw [inlineSubF_succ_skip fuel st c rest hm]
    simpa using ih hok

theorem inlineSub_tableOK (st : AliasState) (l : Line) (hok : TableOK st) :
    TableOK (inlineSub st l).2 :=
  inlineSubF_tableOK l.length st l hok

theorem process_tableOK (st : AliasState) (l : Line) (hok : TableOK st) :
    TableOK (process st l).2 := by
  unfold process
  have h1 := bracketSub_tableOK st l hok
  have h2 := inlineSub_tableOK (bracketSub st l).2 (bracketSub st l).1 h1
  simpa using h2

theorem preprocessFrom_tableOK :
    ∀ (lines : List Line) (st : AliasState), TableOK st →
      TableOK (preprocessFrom st lines).2 := by
  intro lines
  induction lines with
  | nil => intro st h; simpa [preprocessFrom] using h
  | cons l ls ih =>
    intro st hok
    have h1 := process_tableOK st l hok
    have h2 := ih (process st l).2 h1
    simpa [preprocessFrom] using h2

theorem tableOK_empty : TableOK AliasState.empty := by
  intro k hk
  simp [AliasState.empty] at hk

/-- The three-line example of the spec. -/
def aliasExampleLines : List Line :=
  ["[LC][Thing][12345] Create", "HashCode=12345 again",
   "[LC][Thing][67890] Create"].map String.data

/-- The expected transform of `aliasExampleLines`. -/
def aliasExampleExpected : List Line :=
  ["[LC][Thing][ Alice ] Create", "HashCode=Alice again",
   "[LC][Thing][ Bob ] Create"].map String.data

/-- C1: a hash value already in the alias table keeps its assigned name under
either pattern (`alias_for` returns the stored name and leaves the table
untouched); the `k`-th table entry — the `k`-th distinct hash value
encountered, since entries are appended exactly at first sight during the
in-order scan — carries the `k`-th name of the supply sequence; and on the
spec's three-line example `12345 ↦ Alice` (so line 2 reads `HashCode=Alice`)
and `67890 ↦ Bob`. -/
theorem C1_alias_assignment :
    (∀ (st : AliasState) (h : Line) (n : String),
        lookupAlias st.table h = some n → alias_for st h = (n, st)) ∧
      (∀ (lines : List Line) (k : Nat), k < (finalState lines).table.length →
        ((finalState lines).table.getD k ([], "")).2 = nameAt k) ∧
      preprocess_lines aliasExampleLines = aliasExampleExpected ∧
      lookupAlias (finalState aliasExampleLines).table "12345".data = some "Alice" ∧
      lookupAlias (finalState aliasExampleLines).table "67890".data = some "Bob" := by
  refine ⟨?_, ?_, by decide, by decide, by decide⟩
  · intro st h n hl
    unfold alias_for
    rw [hl]
  · intro lines k hk
    exact preprocessFrom_tableOK lines AliasState.empty tableOK_empty k hk

/-- Witness for C1 at concrete inputs. -/
theorem C1_alias_assignment_witness :
    alias_for ⟨[("12345".data, "Alice")]⟩ "12345".data =
        ("Alice", ⟨[("12345".data, "Alice")]⟩) ∧
      ((finalState aliasExampleLines).table.getD 0 ([], "")).2 = nameAt 0 :=
  ⟨C1_alias_assignment.1 _ _ _ (by decide),
   C1_alias_assignment.2.1 aliasExampleLines 0 (by decide)⟩

/-- 45 lines, each containing a fresh bracketed hash value 10000 … 10044. -/
def collisionLines : List Line :=
  (List.range 45).map fun i => '[' :: ((Nat.repr (10000 + i)).data ++ [']'])

/-- C10: the supply sequence repeats the name `Victor` — it is the 19th
curated name (`BASE_NAMES` index 18) and reappears in the phonetic tier
(`NATO_NAMES` index 21, overall index 44) — so an input with 45 distinct hash
values assigns the identical alias `Victor` to two distinct hash values:
alias assignment is not injective. -/
theorem C10_victor_collision :
    nameAt 18 = "Victor" ∧ nameAt 44 = "Victor" ∧
      BASE_NAMES.getD 18 "" = "Victor" ∧ NATO_NAMES.getD 21 "" = "Victor" ∧
      45 ≤ (finalState collisionLines).table.length ∧
      lookupAlias (finalState collisionLines).table "10018".data = some "Victor" ∧
      lookupAlias (finalState collisionLines).table "10044".data = some "Victor" ∧
      "10018".data ≠ "10044".data := by
  exact ⟨by decide, by decide, by decide, by decide, by decide, by decide,
    by decide, by decide⟩

theorem build_records_getD (lines : List Line) (incS : SearchFun)
    (excS : Option SearchFun) (i : Nat) (h : i < lines.length) :
    (build_records lines incS excS).getD i ⟨0, [], false⟩ =
      { source_line_number := i + 1
        text := rstripNl (lines.getD i [])
        included := incS (lines.getD i []) && !excMatch excS (lines.getD i []) } := by
  unfold build_records
  rw [List.getD_eq_getElem _ _ (by simpa using h)]
  simp [List.getElem_enum, List.getD_eq_getElem _ _ h,
    List.getElem?_eq_getElem h]

theorem excMatch_eq_true_iff (excS : Option SearchFun) (l : Line) :
    excMatch excS l = true ↔ ∃ e, excS = some e ∧ e l = true := by
  cases excS <;> simp [excMatch]

/-- C4: the `included` flag of the `i`-th record is true exactly when the
include pattern's search succeeds on the transformed line and it is not the
case that an exclude pattern is present whose search succeeds on it; the
search function of the default include pattern `.*` accepts every line. -/
theorem C4_inclusion_decision :
    (∀ (lines : List Line) (incS : SearchFun) (excS : Option SearchFun)
        (i : Nat), i < lines.length →
        (((build_records lines incS excS).getD i ⟨0, [], false⟩).included = true ↔
          (incS (lines.getD i []) = true ∧
            ¬ ∃ e, excS = some e ∧ e (lines.getD i []) = true))) ∧
      ∀ l, defaultIncludeSearch l = true := by
  constructor
  · intro lines incS excS i h
    rw [build_records_getD lines incS excS i h]
    rw [← excMatch_eq_true_iff]
    simp
  · intro l
    rfl

/-- Witness for C4 at concrete inputs. -/
theorem C4_inclusion_decision_witness :
    (((build_records [['a']] defaultIncludeSearch none).getD 0
          ⟨0, [], false⟩).included = true ↔
        (defaultIncludeSearch (([['a']] : List Line).getD 0 []) = true ∧
          ¬ ∃ e, (none : Option SearchFun) = some e ∧
            e (([['a']] : List Line).getD 0 []) = true)) ∧
      defaultIncludeSearch ['b'] = true :=
  ⟨C4_inclusion_decision.1 [['a']] defaultIncludeSearch none 0 (by decide),
   C4_inclusion_decision.2 ['b']⟩

/-! The viewport controller: safety of the placeholder substitution and the
clamp/scroll invariant. -/

theorem itemsOf_length_pos (records : List LineRecord) (sa : Bool) :
    1 ≤ (itemsOf records sa).length := by
  unfold itemsOf
  split <;> simp

theorem itemsOf_of_ne_nil {records : List LineRecord} {sa : Bool}
    (h : visible_records records sa ≠ []) :
    itemsOf records sa = visible_records records sa := by
  unfold itemsOf
  split
  next hv => exact absurd hv h
  next r rest hv => rw [hv]

theorem clampScroll_showAll (records : List LineRecord) (bh : Nat)
    (s : ViewState) : (clampScroll records bh s).showAll = s.showAll := rfl

theorem clampScroll_inv (records : List LineRecord) (bh : Nat) (hbh : 1 ≤ bh)
    (s : ViewState) : viewInv records bh (clampScroll records bh s) := by
  have hlen := itemsOf_length_pos records s.showAll
  unfold clampScroll viewInv
  simp only []
  split_ifs <;> constructor <;> omega

theorem clampScroll_cursor_lt (records : List LineRecord) (bh : Nat)
    (hbh : 1 ≤ bh) (s : ViewState) :
    (clampScroll records bh s).cursor <
      (itemsOf records (clampScroll records bh s).showAll).length := by
  have h := clampScroll_inv records bh hbh s
  have hp := itemsOf_length_pos records (clampScroll records bh s).showAll
  rcases h with ⟨h1, _, _⟩
  omega

theorem step_inv (records : List LineRecord) (bh : Nat) (hbh : 1 ≤ bh)
    (s : ViewState) (k : Key) : viewInv records bh (step records bh s k) :=
  clampScroll_inv records bh hbh _

theorem foldl_step_inv (records : List LineRecord) (bh : Nat) (hbh : 1 ≤ bh)
    (s0 : ViewState) (ks : List Key) (hne : ks ≠ []) :
    viewInv records bh (ks.foldl (step records bh) s0) := by
  induction ks generalizing s0 with
  | nil => exact absurd rfl hne
  | cons k ks ih =>
    cases ks with
    | nil => simpa using step_inv records bh hbh s0 k
    | cons k2 ks2 =>
      simpa using ih (step records bh s0 k) (by simp)

/-- C2: from any starting viewport state, after each MoveUp / MoveDown /
PageUp / PageDown event (followed by the loop's re-clamp and `topOffset`
recomputation) the cursor stays inside `[0, len(visible) - 1]` and the scroll
window `topOffset ≤ cursorIndex < topOffset + bodyHeight` holds. -/
theorem C2_viewport_clamp (records : List LineRecord) (bodyHeight : Nat)
    (s0 : ViewState) (ks : List Key) (hbh : 1 ≤ bodyHeight)
    (hnav : ∀ k ∈ ks, k ≠ Key.toggle) (i : Nat) (hi : i < ks.length) :
    viewInv records bodyHeight
      ((ks.take (i + 1)).foldl (step records bodyHeight) s0) := by
  apply foldl_step_inv records bodyHeight hbh
  intro hcontra
  have hlen : (ks.take (i + 1)).length = 0 := by rw [hcontra]; rfl
  rw [List.length_take] at hlen
  omega

/-- Witness for C2 at concrete inputs. -/
theorem C2_viewport_clamp_witness :
    viewInv [] 1 (([Key.down].take 1).foldl (step [] 1) ⟨false, 0, 0⟩) :=
  C2_viewport_clamp [] 1 ⟨false, 0, 0⟩ [Key.down] (by decide) (by decide) 0
    (by decide)

/-- C9: the sequence the controller indexes is never empty — whenever the real
visible subsequence is empty (in particular when no record passes the filter
and show-all is off) it is replaced by the single placeholder row — and after
the loop's clamp the cursor always indexes inside that sequence. -/
theorem C9_placeholder_safety :
    (∀ (records : List LineRecord) (sa : Bool),
        1 ≤ (itemsOf records sa).length) ∧
      (∀ records : List LineRecord, records.filter (·.included) = [] →
        itemsOf records false = [placeholderRecord]) ∧
      ∀ (records : List LineRecord) (bh : Nat) (s : ViewState), 1 ≤ bh →
        (clampScroll records bh s).cursor <
          (itemsOf records (clampScroll records bh s).showAll).length := by
  refine ⟨itemsOf_length_pos, ?_, ?_⟩
  · intro records hf
    unfold itemsOf visible_records
    simp [hf]
  · intro records bh s hbh
    exact clampScroll_cursor_lt records bh hbh s

/-- Witness for C9 at concrete inputs. -/
theorem C9_placeholder_safety_witness :
    itemsOf [] false = [placeholderRecord] ∧
      (clampScroll [] 1 ⟨false, 5, 2⟩).cursor <
        (itemsOf [] (clampScroll [] 1 ⟨false, 5, 2⟩).showAll).length :=
  ⟨C9_placeholder_safety.2.1 [] (by decide),
   C9_placeholder_safety.2.2 [] 1 ⟨false, 5, 2⟩ (by decide)⟩

/-! The show-all toggle transition. -/

theorem firstGE_spec (target : Nat) (l : List LineRecord) :
    (∃ i, firstGE target l = some i ∧ i < l.length ∧
        target ≤ (l.getD i placeholderRecord).source_line_number ∧
        ∀ j, j < i →
          (l.getD j placeholderRecord).source_line_number < target) ∨
      (firstGE target l = none ∧
        ∀ r ∈ l, r.source_line_number < target) := by
  induction l with
  | nil => right; exact ⟨rfl, by simp⟩
  | cons r rest ih =>
    by_cases h : target ≤ r.source_line_number
    · left
      refine ⟨0, by simp [firstGE, h], by simp, by simpa using h, ?_⟩
      intro j hj
      omega
    · rcases ih with ⟨i, hf, hi, hge, hlt⟩ | ⟨hf, hall⟩
      · left
        refine ⟨i + 1, by simp [firstGE, h, hf], by simpa using hi,
          by simpa using hge, ?_⟩
        intro j hj
        cases j with
        | zero => simpa using Nat.lt_of_not_le h
        | succ j2 => simpa using hlt j2 (by omega)
      · right
        constructor
        · simp [firstGE, h, hf]
        · intro x hx
          rcases List.mem_cons.mp hx with hx | hx
          · subst hx; omega
          · exact hall x hx

/-- C5: the ToggleShowAll transition flips the show-all flag and moves the
cursor to the first record of the new indexed sequence whose source line
number is ≥ that of the record selected before the toggle, falling back to
the last record of the new sequence when no record qualifies. -/
theorem C5_toggle_transition (records : List LineRecord) (bodyHeight : Nat)
    (s : ViewState) :
    (applyKey records bodyHeight s Key.toggle).showAll = !s.showAll ∧
      (((applyKey records bodyHeight s Key.toggle).cursor <
          (itemsOf records !s.showAll).length ∧
        ((itemsOf records s.showAll).getD s.cursor
            placeholderRecord).source_line_number ≤
          ((itemsOf records !s.showAll).getD
            (applyKey records bodyHeight s Key.toggle).cursor
            placeholderRecord).source_line_number ∧
        ∀ j, j < (applyKey records bodyHeight s Key.toggle).cursor →
          ((itemsOf records !s.showAll).getD j
              placeholderRecord).source_line_number <
            ((itemsOf records s.showAll).getD s.cursor
              placeholderRecord).source_line_number) ∨
       ((∀ r ∈ itemsOf records !s.showAll, r.source_line_number <
          ((itemsOf records s.showAll).getD s.cursor
            placeholderRecord).source_line_number) ∧
        (applyKey records bodyHeight s Key.toggle).cursor =
          (itemsOf records !s.showAll).length - 1)) := by
  have hspec := firstGE_spec
    (((itemsOf records s.showAll).getD s.cursor
      placeholderRecord).source_line_number)
    (itemsOf records !s.showAll)
  unfold applyKey
  simp only []
  rcases hspec with ⟨i, hf, hi, hge, hlt⟩ | ⟨hf, hall⟩
  · rw [hf]
    exact ⟨trivial, Or.inl ⟨hi, hge, hlt⟩⟩
  · rw [hf]
    exact ⟨trivial, Or.inr ⟨hall, rfl⟩⟩

/-! The toggle round trip. -/

/-- The record list of the toggle round-trip counterexample: two records with
the same source line number 5, the first filtered out, the second included. -/
def roundTripRecords : List LineRecord :=
  [⟨5, ['x'], false⟩, ⟨5, ['y'], true⟩]

/-- C6 counterexample: starting with show-all on and the cursor on the second
record (which is included, hence present in both the filtered subsequence and
the full sequence), toggling twice moves the cursor to index 0 — a different
record — because both records share source line number 5. -/
theorem C6_toggle_roundtrip_counterexample :
    (itemsOf roundTripRecords true).getD 1 placeholderRecord =
        (⟨5, ['y'], true⟩ : LineRecord) ∧
      (⟨5, ['y'], true⟩ : LineRecord).included = true ∧
      (⟨5, ['y'], true⟩ : LineRecord) ∈ visible_records roundTripRecords false ∧
      (⟨5, ['y'], true⟩ : LineRecord) ∈ visible_records roundTripRecords true ∧
      (step roundTripRecords 1
          (step roundTripRecords 1 ⟨true, 1, 0⟩ Key.toggle) Key.toggle).cursor ≠
        (⟨true, 1, 0⟩ : ViewState).cursor ∧
      (itemsOf roundTripRecords true).getD
          (step roundTripRecords 1
            (step roundTripRecords 1 ⟨true, 1, 0⟩ Key.toggle) Key.toggle).cursor
          placeholderRecord ≠ (⟨5, ['y'], true⟩ : LineRecord) := by
  decide

theorem visible_records_sublist (records : List LineRecord) (sa : Bool) :
    (visible_records records sa).Sublist records := by
  unfold visible_records
  split
  · exact List.Sublist.refl records
  · exact List.filter_sublist records

theorem firstGE_self_of_pairwise :
    ∀ (l : List LineRecord),
      l.Pairwise (fun a b => a.source_line_number < b.source_line_number) →
      ∀ (i : Nat) (h : i < l.length),
        firstGE ((l.get ⟨i, h⟩).source_line_number) l = some i := by
  intro l
  induction l with
  | nil => intro _ i h; simp at h
  | cons r rest ih =>
    intro hp i h
    cases i with
    | zero => simp [firstGE]
    | succ j =>
      have hj : j < rest.length := by simpa using h
      have hlt : r.source_line_number <
          (rest.get ⟨j, hj⟩).source_line_number :=
        (List.pairwise_cons.mp hp).1 _ (rest.get_mem j hj)
      have hrec := ih (List.pairwise_cons.mp hp).2 j hj
      show firstGE (((r :: rest).get ⟨j + 1, h⟩).source_line_number)
        (r :: rest) = some (j + 1)
      have hgr : ((r :: rest).get ⟨j + 1, h⟩) = rest.get ⟨j, hj⟩ := rfl
      rw [hgr]
      rw [firstGE]
      rw [if_neg (by omega)]
      rw [hrec]
      rfl

theorem clampScroll_cursor_of_lt (records : List LineRecord) (bh : Nat)
    (s : ViewState) (h : s.cursor < (itemsOf records s.showAll).length) :
    (clampScroll records bh s).cursor = s.cursor := by
  unfold clampScroll
  simp only []
  omega

theorem applyKey_toggle_showAll (records : List LineRecord) (bh : Nat)
    (s : ViewState) : (applyKey records bh s Key.toggle).showAll = !s.showAll :=
  rfl

theorem applyKey_toggle_cursor (records : List LineRecord) (bh : Nat)
    (s : ViewState) (j : Nat)
    (hf : firstGE (((itemsOf records s.showAll).getD s.cursor
        placeholderRecord).source_line_number)
        (itemsOf records (!s.showAll)) = some j) :
    (applyKey records bh s Key.toggle).cursor = j := by
  unfold applyKey
  simp only [hf]

/-- C6 amended: when the source line numbers are strictly increasing along the
record list — as `build_records` guarantees for every list it builds — the
toggle round trip returns the cursor to the exact record it started on,
whenever that record is included (hence present in both subsequences) and
selected. -/
theorem C6_toggle_roundtrip (records : List LineRecord) (bodyHeight : Nat)
    (s : ViewState) (r : LineRecord)
    (hmono : records.Pairwise
      (fun a b => a.source_line_number < b.source_line_number))
    (hc : s.cursor < (visible_records records s.showAll).length)
    (hr : (visible_records records s.showAll).getD s.cursor placeholderRecord = r)
    (hincl : r.included = true) :
    (step records bodyHeight (step records bodyHeight s Key.toggle)
        Key.toggle).showAll = s.showAll ∧
      (step records bodyHeight (step records bodyHeight s Key.toggle)
        Key.toggle).cursor = s.cursor ∧
      (itemsOf records s.showAll).getD
        (step records bodyHeight (step records bodyHeight s Key.toggle)
          Key.toggle).cursor placeholderRecord = r := by
  have hv1ne : visible_records records s.showAll ≠ [] := by
    intro hnil
    rw [hnil] at hc
    simp at hc
  have hit1 : itemsOf records s.showAll = visible_records records s.showAll :=
    itemsOf_of_ne_nil hv1ne
  have hget1 : (visible_records records s.showAll).get ⟨s.cursor, hc⟩ = r := by
    simp only [List.get_eq_getElem]
    rw [← List.getD_eq_getElem _ placeholderRecord hc]
    exact hr
  have hmem1 : r ∈ visible_records records s.showAll := by
    rw [← hget1]
    exact List.get_mem _ _ _
  have hmemrec : r ∈ records := (visible_records_sublist records s.showAll).subset hmem1
  have hmem2 : r ∈ visible_records records (!s.showAll) := by
    unfold visible_records
    split
    · exact hmemrec
    · exact List.mem_filter.mpr ⟨hmemrec, hincl⟩
  have hv2ne : visible_records records (!s.showAll) ≠ [] :=
    List.ne_nil_of_mem hmem2
  have hit2 : itemsOf records (!s.showAll) =
      visible_records records (!s.showAll) := itemsOf_of_ne_nil hv2ne
  have hpw1 : (visible_records records s.showAll).Pairwise
      (fun a b => a.source_line_number < b.source_line_number) :=
    List.Pairwise.sublist (visible_records_sublist records s.showAll) hmono
  have hpw2 : (visible_records records (!s.showAll)).Pairwise
      (fun a b => a.source_line_number < b.source_line_number) :=
    List.Pairwise.sublist (visible_records_sublist records (!s.showAll)) hmono
  obtain ⟨⟨j, hj⟩, hget2⟩ := List.mem_iff_get.mp hmem2
  -- the first toggle
  have hcs : s.cursor < (itemsOf records s.showAll).length := by
    rw [hit1]; exact hc
  have hclamp1 : (clampScroll records bodyHeight s).cursor = s.cursor :=
    clampScroll_cursor_of_lt records bodyHeight s hcs
  have hclamp1sa : (clampScroll records bodyHeight s).showAll = s.showAll := rfl
  have hcur1 : ((itemsOf records
      (clampScroll records bodyHeight s).showAll).getD
      (clampScroll records bodyHeight s).cursor
      placeholderRecord).source_line_number = r.source_line_number := by
    rw [hclamp1sa, hclamp1, hit1, hr]
  have hf1 : firstGE (((itemsOf records
      (clampScroll records bodyHeight s).showAll).getD
      (clampScroll records bodyHeight s).cursor
      placeholderRecord).source_line_number)
      (itemsOf records (!(clampScroll records bodyHeight s).showAll)) =
      some j := by
    rw [hcur1, hclamp1sa, hit2, ← hget2]
    exact firstGE_self_of_pairwise _ hpw2 j hj
  have ht1c : (applyKey records bodyHeight
      (clampScroll records bodyHeight s) Key.toggle).cursor = j :=
    applyKey_toggle_cursor records bodyHeight _ j hf1
  have ht1sa : (applyKey records bodyHeight
      (clampScroll records bodyHeight s) Key.toggle).showAll = !s.showAll := by
    rw [applyKey_toggle_showAll, hclamp1sa]
  -- the clamp after the first toggle
  have hjlt : (applyKey records bodyHeight
      (clampScroll records bodyHeight s) Key.toggle).cursor <
      (itemsOf records (applyKey records bodyHeight
        (clampScroll records bodyHeight s) Key.toggle).showAll).length := by
    rw [ht1c, ht1sa, hit2]
    exact hj
  have hs1c : (step records bodyHeight s Key.toggle).cursor = j := by
    unfold step
    rw [clampScroll_cursor_of_lt _ _ _ hjlt, ht1c]
  have hs1sa : (step records bodyHeight s Key.toggle).showAll = !s.showAll := by
    unfold step
    rw [clampScroll_showAll, ht1sa]
  -- the second toggle
  have hcs1 : (step records bodyHeight s Key.toggle).cursor <
      (itemsOf records (step records bodyHeight s Key.toggle).showAll).length := by
    rw [hs1c, hs1sa, hit2]
    exact hj
  have hclamp2 : (clampScroll records bodyHeight
      (step records bodyHeight s Key.toggle)).cursor = j := by
    rw [clampScroll_cursor_of_lt _ _ _ hcs1, hs1c]
  have hclamp2sa : (clampScroll records bodyHeight
      (step records bodyHeight s Key.toggle)).showAll = !s.showAll := by
    rw [clampScroll_showAll, hs1sa]
  have hcur2 : ((itemsOf records
      (clampScroll records bodyHeight
        (step records bodyHeight s Key.toggle)).showAll).getD
      (clampScroll records bodyHeight
        (step records bodyHeight s Key.toggle)).cursor
      placeholderRecord).source_line_number = r.source_line_number := by
    rw [hclamp2sa, hclamp2, hit2]
    rw [List.getD_eq_get _ placeholderRecord hj, hget2]
  have hf2 : firstGE (((itemsOf records
      (clampScroll records bodyHeight
        (step records bodyHeight s Key.toggle)).showAll).getD
      (clampScroll records bodyHeight
        (step records bodyHeight s Key.toggle)).cursor
      placeholderRecord).source_line_number)
      (itemsOf records (!(clampScroll records bodyHeight
        (step records bodyHeight s Key.toggle)).showAll)) = some s.cursor := by
    rw [hcur2, hclamp2sa, Bool.not_not, hit1, ← hget1]
    exact firstGE_self_of_pairwise _ hpw1 s.cursor hc
  have ht2c : (applyKey records bodyHeight
      (clampScroll records bodyHeight (step records bodyHeight s Key.toggle))
      Key.toggle).cursor = s.cursor :=
    applyKey_toggle_cursor records bodyHeight _ s.cursor hf2
  have ht2sa : (applyKey records bodyHeight
      (clampScroll records bodyHeight (step records bodyHeight s Key.toggle))
      Key.toggle).showAll = s.showAll := by
    rw [applyKey_toggle_showAll, hclamp2sa, Bool.not_not]
  have hlt2 : (applyKey records bodyHeight
      (clampScroll records bodyHeight (step records bodyHeight s Key.toggle))
      Key.toggle).cursor <
      (itemsOf records (applyKey records bodyHeight
        (clampScroll records bodyHeight (step records bodyHeight s Key.toggle))
        Key.toggle).showAll).length := by
    rw [ht2c, ht2sa]
    exact hcs
  have hstep : step records bodyHeight (step records bodyHeight s Key.toggle)
      Key.toggle = clampScroll records bodyHeight (applyKey records bodyHeight
        (clampScroll records bodyHeight (step records bodyHeight s Key.toggle))
        Key.toggle) := rfl
  have hcfin : (step records bodyHeight (step records bodyHeight s Key.toggle)
      Key.toggle).cursor = s.cursor := by
    rw [hstep, clampScroll_cursor_of_lt _ _ _ hlt2, ht2c]
  refine ⟨?_, hcfin, ?_⟩
  · rw [hstep, clampScroll_showAll, ht2sa]
  · rw [hcfin, hit1, hr]

/-- Witness for the amended C6 at concrete inputs. -/
theorem C6_toggle_roundtrip_witness :
    (step [(⟨1, ['z'], true⟩ : LineRecord)] 1
        (step [(⟨1, ['z'], true⟩ : LineRecord)] 1 ⟨false, 0, 0⟩ Key.toggle)
        Key.toggle).showAll = (⟨false, 0, 0⟩ : ViewState).showAll ∧
      (step [(⟨1, ['z'], true⟩ : LineRecord)] 1
        (step [(⟨1, ['z'], true⟩ : LineRecord)] 1 ⟨false, 0, 0⟩ Key.toggle)
        Key.toggle).cursor = (⟨false, 0, 0⟩ : ViewState).cursor ∧
      (itemsOf [(⟨1, ['z'], true⟩ : LineRecord)]
          (⟨false, 0, 0⟩ : ViewState).showAll).getD
        (step [(⟨1, ['z'], true⟩ : LineRecord)] 1
          (step [(⟨1, ['z'], true⟩ : LineRecord)] 1 ⟨false, 0, 0⟩ Key.toggle)
          Key.toggle).cursor placeholderRecord = (⟨1, ['z'], true⟩ : LineRecord) :=
  C6_toggle_roundtrip [(⟨1, ['z'], true⟩ : LineRecord)] 1 ⟨false, 0, 0⟩
    (⟨1, ['z'], true⟩ : LineRecord) (by decide) (by decide) (by decide)
    (by decide)

/-! The two rewritten textual forms, and that nothing else is rewritten. -/

/-- A bracket-hash match starts at the head of the line: a literal `[`, a
maximal decimal-digit run of length ≥ 5, a closing `]`. -/
def bracketMatchAt : Line → Bool
  | '[' :: rest =>
    decide (5 ≤ (rest.takeWhile pyDigit).length) &&
      (match rest.dropWhile pyDigit with
       | ']' :: _ => true
       | _ => false)
  | _ => false

/-- Some bracket-hash match starts somewhere in the line. -/
def hasBracketMatch : Line → Bool
  | [] => false
  | c :: rest => bracketMatchAt (c :: rest) || hasBracketMatch rest

/-- An inline-hash match starts at the head of the line: the literal
`HashCode=` followed by a maximal decimal-digit run of length ≥ 5. -/
def inlineMatchAt (l : Line) : Bool :=
  match matchLit hashCodeLit l with
  | some rest1 => decide (5 ≤ (rest1.takeWhile pyDigit).length)
  | none => false

/-- Some inline-hash match starts somewhere in the line. -/
def hasInlineMatch : Line → Bool
  | [] => false
  | c :: rest => inlineMatchAt (c :: rest) || hasInlineMatch rest

theorem bracketSubF_of_noMatch :
    ∀ (fuel : Nat) (st : AliasState) (l : Line), hasBracketMatch l = false →
      bracketSubF fuel st l = (l, st) := by
  intro fuel st l
  induction fuel, st, l using bracketSubF.induct with
  | case1 st l => intro _; rfl
  | case2 fuel st => intro _; rfl
  | case3 fuel st rest rest3 hdrop hlen name st1 halias tl st2 hrec ih =>
    intro h
    have hat : bracketMatchAt ('[' :: rest) = true := by
      have heq : bracketMatchAt ('[' :: rest) =
          (decide (5 ≤ (rest.takeWhile pyDigit).length) &&
            match rest.dropWhile pyDigit with
            | ']' :: _ => true
            | _ => false) := rfl
      rw [heq, hdrop]
      simp [hlen]
    simp [hasBracketMatch, hat] at h
  | case4 fuel st rest rest3 hdrop hlen tl st2 hrec ih =>
    intro h
    simp only [hasBracketMatch, Bool.or_eq_false_iff] at h
    rw [bracketSubF_succ_shortRun fuel st rest rest3 hdrop hlen, ih h.2]
  | case5 fuel st rest tl st2 hrec hne ih =>
    intro h
    simp only [hasBracketMatch, Bool.or_eq_false_iff] at h
    rw [bracketSubF_succ_noClose fuel st rest hne, ih h.2]
  | case6 fuel st c rest hc tl st2 hrec ih =>
    intro h
    simp only [hasBracketMatch, Bool.or_eq_false_iff] at h
    rw [bracketSubF_succ_skip fuel st c rest hc, ih h.2]

theorem inlineSubF_of_noMatch :
    ∀ (fuel : Nat) (st : AliasState) (l : Line), hasInlineMatch l = false →
      inlineSubF fuel st l = (l, st) := by
  intro fuel st l
  induction fuel, st, l using inlineSubF.induct with
  | case1 st l => intro _; rfl
  | case2 fuel st => intro _; rfl
  | case3 fuel st c rest rest1 hm hlen name st1 halias tl st2 hrec ih =>
    intro h
    have hat : inlineMatchAt (c :: rest) = true := by
      unfold inlineMatchAt
      rw [hm]
      simp [hlen]
    simp [hasInlineMatch, hat] at h
  | case4 fuel st c rest rest1 hm hlen tl st2 hrec ih =>
    intro h
    simp only [hasInlineMatch, Bool.or_eq_false_iff] at h
    rw [inlineSubF_succ_shortRun fuel st c rest rest1 hm hlen, ih h.2]
  | case5 fuel st c rest hm tl st2 hrec ih =>
    intro h
    simp only [hasInlineMatch, Bool.or_eq_false_iff] at h
    rw [inlineSubF_succ_skip fuel st c rest hm, ih h.2]

theorem matchLit_self : ∀ (p l : Line), matchLit p (p ++ l) = some l := by
  intro p
  induction p with
  | nil => intro l; rfl
  | cons c cs ih => intro l; simp [matchLit, ih]

theorem dropWhile_of_takeWhile_nil {p : Char → Bool} {l : Line}
    (h : l.takeWhile p = []) : l.dropWhile p = l := by
  cases l with
  | nil => rfl
  | cons c rest =>
    simp only [List.takeWhile] at h
    simp only [List.dropWhile]
    split at h
    · cases h
    · next hp => simp [hp]

theorem bracket_form (st : AliasState) (ds rest : List Char)
    (hds : ∀ c ∈ ds, pyDigit c = true) (hlen : 5 ≤ ds.length) :
    bracketSub st ('[' :: (ds ++ ']' :: rest)) =
      ('[' :: ' ' :: ((alias_for st ds).1.data ++
          ' ' :: ']' :: (bracketSub (alias_for st ds).2 rest).1),
        (bracketSub (alias_for st ds).2 rest).2) := by
  have hnd : pyDigit ']' = false := by decide
  have ht : (ds ++ ']' :: rest).takeWhile pyDigit = ds := by
    rw [List.takeWhile_append_of_pos hds]
    simp [List.takeWhile, hnd]
  have hd : (ds ++ ']' :: rest).dropWhile pyDigit = ']' :: rest := by
    rw [List.dropWhile_append_of_pos hds]
    simp [List.dropWhile, hnd]
  rw [bracketSub_hit st (ds ++ ']' :: rest) rest hd (by rw [ht]; exact hlen)]
  rw [ht]

theorem inline_form (st : AliasState) (ds rest : List Char)
    (hds : ∀ c ∈ ds, pyDigit c = true) (hlen : 5 ≤ ds.length)
    (hrest : rest.takeWhile pyDigit = []) :
    inlineSub st (hashCodeLit ++ (ds ++ rest)) =
      (hashCodeLit ++ ((alias_for st ds).1.data ++
          (inlineSub (alias_for st ds).2 rest).1),
        (inlineSub (alias_for st ds).2 rest).2) := by
  have hm : matchLit hashCodeLit (hashCodeLit ++ (ds ++ rest)) =
      some (ds ++ rest) := matchLit_self _ _
  have ht : (ds ++ rest).takeWhile pyDigit = ds := by
    rw [List.takeWhile_append_of_pos hds, hrest]
    simp
  have hd : (ds ++ rest).dropWhile pyDigit = rest := by
    rw [List.dropWhile_append_of_pos hds]
    exact dropWhile_of_takeWhile_nil hrest
  have hres := inlineSub_hit st 'H'
    (['a', 's', 'h', 'C', 'o', 'd', 'e', '='] ++ (ds ++ rest)) (ds ++ rest) hm
    (by rw [ht]; exact hlen)
  rw [ht, hd] at hres
  exact hres

/-- C7 counterexample: the digit class of `BRACKET_HASH_RE` and
`INLINE_HASH_RE` is Python's `\d` on `str` patterns — every Unicode decimal
digit — not only ASCII, so the transformer also rewrites a bracketed run of
five-or-more non-ASCII decimal digits: the line `[٠١٢٣٤٥]` (six Arabic-Indic
digits, U+0660–U+0665, none of them an ASCII digit) is rewritten to
`[ Alice ]`, a form outside the claim's "exactly two textual forms" of ASCII
digits. -/
theorem C7_unicode_digit_counterexample :
    (∀ c ∈ ['\u0660', '\u0661', '\u0662', '\u0663', '\u0664', '\u0665'],
        (decide ('0' ≤ c) && decide (c ≤ '9')) = false) ∧
      preprocess_lines
          [['[', '\u0660', '\u0661', '\u0662', '\u0663', '\u0664', '\u0665',
            ']']] =
        ["[ Alice ]".data] :=
  ⟨by decide, by decide⟩

/-- C7 amended: with the digit class being every Unicode decimal digit
(category `Nd`, Python's `\d`) rather than only ASCII, the transformer
rewrites exactly the two textual forms — a `[`, a maximal digit run of length
≥ 5 and `]` becomes `[ <Name> ]` with one space on each side of the name, and
the literal `HashCode=` followed by a maximal digit run of length ≥ 5 becomes
`HashCode=<Name>` with no padding — and nothing else: a line without a
bracket match passes the bracket pass unchanged, a line without an inline
match passes the inline pass unchanged (in particular digit runs shorter than
5, as the unchanged line `[1234] HashCode=1234` shows), and all bracket
matches are substituted before any inline match is attempted, as
`HashCode=11111 [22222]` ↦ `HashCode=Bob [ Alice ]` exhibits (the bracketed
`22222` receives the first name). -/
theorem C7_rewrite_forms :
    (∀ (st : AliasState) (l : Line), hasBracketMatch l = false →
        bracketSub st l = (l, st)) ∧
      (∀ (st : AliasState) (l : Line), hasInlineMatch l = false →
        inlineSub st l = (l, st)) ∧
      (∀ (st : AliasState) (ds rest : List Char),
        (∀ c ∈ ds, pyDigit c = true) → 5 ≤ ds.length →
        bracketSub st ('[' :: (ds ++ ']' :: rest)) =
          ('[' :: ' ' :: ((alias_for st ds).1.data ++
              ' ' :: ']' :: (bracketSub (alias_for st ds).2 rest).1),
            (bracketSub (alias_for st ds).2 rest).2)) ∧
      (∀ (st : AliasState) (ds rest : List Char),
        (∀ c ∈ ds, pyDigit c = true) → 5 ≤ ds.length →
        rest.takeWhile pyDigit = [] →
        inlineSub st (hashCodeLit ++ (ds ++ rest)) =
          (hashCodeLit ++ ((alias_for st ds).1.data ++
              (inlineSub (alias_for st ds).2 rest).1),
            (inlineSub (alias_for st ds).2 rest).2)) ∧
      preprocess_lines ["[1234] HashCode=1234".data] =
        ["[1234] HashCode=1234".data] ∧
      preprocess_lines ["HashCode=11111 [22222]".data] =
        ["HashCode=Bob [ Alice ]".data] := by
  refine ⟨?_, ?_, bracket_form, inline_form, by decide, by decide⟩
  · intro st l h
    exact bracketSubF_of_noMatch l.length st l h
  · intro st l h
    exact inlineSubF_of_noMatch l.length st l h

/-- Witness for C7 at concrete inputs. -/
theorem C7_rewrite_forms_witness :
    bracketSub AliasState.empty "ab".data = ("ab".data, AliasState.empty) ∧
      inlineSub AliasState.empty "ab".data = ("ab".data, AliasState.empty) ∧
      bracketSub AliasState.empty ('[' :: ("12345".data ++ ']' :: [])) =
        ('[' :: ' ' :: ((alias_for AliasState.empty "12345".data).1.data ++
            ' ' :: ']' ::
              (bracketSub (alias_for AliasState.empty "12345".data).2 []).1),
          (bracketSub (alias_for AliasState.empty "12345".data).2 []).2) ∧
      inlineSub AliasState.empty (hashCodeLit ++ ("12345".data ++ [])) =
        (hashCodeLit ++ ((alias_for AliasState.empty "12345".data).1.data ++
            (inlineSub (alias_for AliasState.empty "12345".data).2 []).1),
          (inlineSub (alias_for AliasState.empty "12345".data).2 []).2) :=
  ⟨C7_rewrite_forms.1 AliasState.empty "ab".data (by decide),
   C7_rewrite_forms.2.1 AliasState.empty "ab".data (by decide),
   C7_rewrite_forms.2.2.1 AliasState.empty "12345".data [] (by decide)
     (by decide),
   C7_rewrite_forms.2.2.2.1 AliasState.empty "12345".data [] (by decide)
     (by decide) (by decide)⟩

/-! Tail mode against batch output mode. -/

theorem tailRun_eq (incS : SearchFun) (excS : Option SearchFun) :
    ∀ (lines : List Line) (st : AliasState),
      tailRun incS excS st lines =
        filter_lines (preprocessFrom st lines).1 incS excS := by
  intro lines
  induction lines with
  | nil => intro st; rfl
  | cons l ls ih =>
    intro st
    simp only [tailRun, preprocessFrom]
    rw [ih (process st l).2]
    simp only [filter_lines, List.filter_cons]

theorem universalNewlines_crnl (rest : Line) :
    universalNewlines ('\r' :: '\n' :: rest) = '\n' :: universalNewlines rest :=
  rfl

theorem universalNewlines_cr (rest : Line)
    (hne : ∀ r, rest = '\n' :: r → False) :
    universalNewlines ('\r' :: rest) = '\n' :: universalNewlines rest := by
  rw [universalNewlines.eq_def]
  split
  next heq => cases heq
  next r2 heq =>
    injection heq with h1 h2
    exact absurd h2 fun h => hne r2 h
  next r2 heq =>
    injection heq with h1 h2
    rw [h2]
  next c r2 hne2 hc heq =>
    injection heq with h1 h2
    exact absurd h1.symm hc

theorem universalNewlines_other (c : Char) (rest : Line) (hc : ¬ c = '\r') :
    universalNewlines (c :: rest) = c :: universalNewlines rest := by
  rw [universalNewlines.eq_def]
  split
  next heq => cases heq
  next r2 heq =>
    injection heq with h1 h2
    exact absurd h1 hc
  next r2 heq =>
    injection heq with h1 h2
    exact absurd h1 hc
  next c2 r2 hne2 hc2 heq =>
    injection heq with h1 h2
    rw [h1, h2]

theorem universalNewlines_no_cr : ∀ l : Line, '\r' ∉ universalNewlines l := by
  intro l
  induction l using universalNewlines.induct with
  | case1 => simp [universalNewlines]
  | case2 rest ih =>
    rw [universalNewlines_crnl]
    intro hmem
    rcases List.mem_cons.mp hmem with h | h
    · cases h
    · exact ih h
  | case3 rest hne ih =>
    rw [universalNewlines_cr rest fun r h => hne r h]
    intro hmem
    rcases List.mem_cons.mp hmem with h | h
    · cases h
    · exact ih h
  | case4 c rest hne hc ih =>
    rw [universalNewlines_other c rest fun h => hc h]
    intro hmem
    rcases List.mem_cons.mp hmem with h | h
    · exact absurd h.symm hc
    · exact ih h

theorem universalNewlines_mem :
    ∀ (l : Line) (c : Char), c ∈ universalNewlines l → c ∈ l ∨ c = '\n' := by
  intro l
  induction l using universalNewlines.induct with
  | case1 => intro c h; simp [universalNewlines] at h
  | case2 rest ih =>
    intro c h
    rw [universalNewlines_crnl] at h
    rcases List.mem_cons.mp h with h | h
    · right; exact h
    · rcases ih c h with h2 | h2
      · left; simp [h2]
      · right; exact h2
  | case3 rest hne ih =>
    intro c h
    rw [universalNewlines_cr rest fun r h2 => hne r h2] at h
    rcases List.mem_cons.mp h with h | h
    · right; exact h
    · rcases ih c h with h2 | h2
      · left; simp [h2]
      · right; exact h2
  | case4 c2 rest hne hc2 ih =>
    intro c h
    rw [universalNewlines_other c2 rest fun h2 => hc2 h2] at h
    rcases List.mem_cons.mp h with h | h
    · left; simp [h]
    · rcases ih c h with h2 | h2
      · left; simp [h2]
      · right; exact h2

theorem splitF_succ_nl (fuel : Nat) (acc rest : Line) :
    splitlinesKeependsF (fuel + 1) acc ('\n' :: rest) =
      (acc.reverse ++ ['\n']) :: splitlinesKeependsF fuel [] rest := rfl

theorem splitF_succ_other (fuel : Nat) (acc : Line) (c : Char) (rest : Line)
    (hc : lineBreakChar c = false) :
    splitlinesKeependsF (fuel + 1) acc (c :: rest) =
      splitlinesKeependsF fuel (c :: acc) rest := by
  have hcr : ¬ c = '\r' := by
    intro h
    subst h
    simp [lineBreakChar] at hc
  simp only [splitlinesKeependsF]
  rw [if_neg hcr, if_neg (by simp [hc])]

theorem split_agree :
    ∀ (fuel : Nat) (acc l : Line), l.length ≤ fuel →
      (∀ c ∈ l, lineBreakChar c = true → c = '\n') →
      splitlinesKeependsF fuel acc l = splitAfterNl acc l := by
  intro fuel
  induction fuel with
  | zero =>
    intro acc l h hl
    have hnil : l = [] := List.eq_nil_of_length_eq_zero (Nat.le_zero.mp h)
    subst hnil
    rfl
  | succ n ih =>
    intro acc l h hl
    cases l with
    | nil => rfl
    | cons c rest =>
      have hrest : ∀ c2 ∈ rest, lineBreakChar c2 = true → c2 = '\n' :=
        fun c2 hm => hl c2 (List.mem_cons_of_mem _ hm)
      have hlen : rest.length ≤ n := by simp at h; omega
      by_cases hbr : lineBreakChar c = true
      · have hcn : c = '\n' := hl c (List.mem_cons_self c rest) hbr
        subst hcn
        rw [splitF_succ_nl]
        simp only [splitAfterNl, if_true]
        rw [ih [] rest hlen hrest]
      · have hbr2 : lineBreakChar c = false := by simpa using hbr
        have hcn : ¬ c = '\n' := by
          intro hcc
          subst hcc
          simp [lineBreakChar] at hbr2
        rw [splitF_succ_other n acc c rest hbr2]
        simp only [splitAfterNl]
        rw [if_neg hcn]
        exact ih (c :: acc) rest hlen hrest

/-- C3 counterexample: the file contents `"a\x0bb\n"` (a vertical tab inside
the first line) with the default include pattern and an exclude pattern whose
search finds an `a`.  Batch mode splits at the vertical tab
(`str.splitlines`), so only `"a\x0b"` is excluded and `"b\n"` is written;
tail mode's `readline` splits only at newlines, reads the single line
`"a\x0bb\n"`, excludes it, and writes nothing. -/
theorem C3_tail_batch_counterexample :
    batchWritten "a\x0bb\n".data defaultIncludeSearch
        (some fun l => l.contains 'a') ≠
      tailWritten "a\x0bb\n".data defaultIncludeSearch
        (some fun l => l.contains 'a') := by
  decide

/-- C3 amended: when every line-break character of the file contents is a
newline or a carriage return (no vertical tab, form feed, file/group/record
separator, NEL or Unicode line/paragraph separator — the characters at which
`str.splitlines` breaks but `readline` does not), batch output mode and tail
mode stopped at end of file write the identical ordered sequence of lines. -/
theorem C3_tail_batch (contents : Line) (incS : SearchFun)
    (excS : Option SearchFun)
    (hbreaks : ∀ c ∈ contents, lineBreakChar c = true → c = '\n' ∨ c = '\r') :
    batchWritten contents incS excS = tailWritten contents incS excS := by
  have htrans : ∀ c ∈ universalNewlines contents,
      lineBreakChar c = true → c = '\n' := by
    intro c hm hb
    rcases universalNewlines_mem contents c hm with h | h
    · rcases hbreaks c h hb with h2 | h2
      · exact h2
      · subst h2
        exact absurd hm (universalNewlines_no_cr contents)
    · exact h
  unfold batchWritten tailWritten
  rw [tailRun_eq]
  rw [show splitlinesKeepends [] (universalNewlines contents) =
    splitAfterNl [] (universalNewlines contents) from
    split_agree _ [] _ le_rfl htrans]
  rfl

/-- Witness for the amended C3 at concrete inputs. -/
theorem C3_tail_batch_witness :
    batchWritten "x\n".data defaultIncludeSearch none =
      tailWritten "x\n".data defaultIncludeSearch none :=
  C3_tail_batch "x\n".data defaultIncludeSearch none (by decide)

/-! Exit statuses of `main`. -/

/-- The exclude option is absent or compiled successfully. -/
def excludeOk (cfg : MainConfig) : Prop :=
  cfg.excludeArg = none ∨ ∃ srch, cfg.excludeArg = some (RegexCompile.ok srch)

/-- C8 counterexample: the statuses of the three failure categories are not
pairwise distinct — a malformed include pattern and the tail-with-stdin
conflict both exit with status 2 (both non-zero). -/
theorem C8_exit_status_counterexample :
    (mainRun ⟨RegexCompile.err "x", none, false, false, true, "p"⟩).1 = 2 ∧
      (mainRun ⟨RegexCompile.ok defaultIncludeSearch, none, true, true, true,
        "p"⟩).1 = 2 ∧
      (mainRun ⟨RegexCompile.err "x", none, false, false, true, "p"⟩).1 ≠ 0 ∧
      (mainRun ⟨RegexCompile.ok defaultIncludeSearch, none, true, true, true,
        "p"⟩).1 ≠ 0 ∧
      (mainRun ⟨RegexCompile.err "x", none, false, false, true, "p"⟩).1 =
        (mainRun ⟨RegexCompile.ok defaultIncludeSearch, none, true, true, true,
          "p"⟩).1 :=
  ⟨rfl, rfl, by decide, by decide, rfl⟩

/-- C8 amended: a malformed include or exclude pattern exits with status 2 and
a message naming the failing option, decided before any line is read (the
result does not depend on the input fields at all); a missing input path exits
with status 1 whether or not tail mode was requested — in batch mode with the
program's own `File not found` message, in tail mode through the uncaught
`FileNotFoundError` that makes the interpreter exit 1 with a traceback and no
program-printed message; requesting tail mode with stdin input exits with
status 2 — the same status as pattern errors, so the failure statuses are
each non-zero but not pairwise distinct across categories; batch or
interactive completion (the viewer returns on the quit key) and tail-mode
cancellation via interrupt (the only return of `stream_tail` on an existing
file) exit with status 0. -/
theorem C8_exit_codes :
    (∀ (cfg : MainConfig) (e : String), cfg.includeArg = RegexCompile.err e →
        mainRun cfg = (2, some ("Invalid --include regex: " ++ e))) ∧
      (∀ (cfg : MainConfig) (srch : SearchFun) (e : String),
        cfg.includeArg = RegexCompile.ok srch →
        cfg.excludeArg = some (RegexCompile.err e) →
        mainRun cfg = (2, some ("Invalid --exclude regex: " ++ e))) ∧
      (∀ (cfg : MainConfig) (srch : SearchFun),
        cfg.includeArg = RegexCompile.ok srch → excludeOk cfg →
        cfg.tail = true → cfg.logFileIsStdin = true →
        mainRun cfg =
          (2, some "--tail requires a file path, not stdin ('-').")) ∧
      (∀ (cfg : MainConfig) (srch : SearchFun),
        cfg.includeArg = RegexCompile.ok srch → excludeOk cfg →
        cfg.logFileIsStdin = false → cfg.fileFound = false →
        (mainRun cfg).1 = 1) ∧
      (∀ (cfg : MainConfig) (srch : SearchFun),
        cfg.includeArg = RegexCompile.ok srch → excludeOk cfg →
        cfg.tail = false → cfg.logFileIsStdin = false →
        cfg.fileFound = false →
        mainRun cfg = (1, some ("File not found: " ++ cfg.pathName))) ∧
      (∀ (cfg : MainConfig) (srch : SearchFun),
        cfg.includeArg = RegexCompile.ok srch → excludeOk cfg →
        cfg.tail = true → cfg.logFileIsStdin = false →
        cfg.fileFound = false →
        mainRun cfg = (1, none)) ∧
      (∀ (cfg : MainConfig) (srch : SearchFun),
        cfg.includeArg = RegexCompile.ok srch → excludeOk cfg →
        cfg.tail = false →
        (cfg.logFileIsStdin = true ∨ cfg.fileFound = true) →
        mainRun cfg = (0, none)) ∧
      (∀ (cfg : MainConfig) (srch : SearchFun),
        cfg.includeArg = RegexCompile.ok srch → excludeOk cfg →
        cfg.tail = true → cfg.logFileIsStdin = false →
        cfg.fileFound = true →
        mainRun cfg = (0, none)) := by
  refine ⟨?_, ?_, ?_, ?_, ?_, ?_, ?_, ?_⟩
  · intro cfg e h
    simp [mainRun, h]
  · intro cfg srch e hinc hexc
    simp [mainRun, hinc, hexc]
  · intro cfg srch hinc hexc htail hstdin
    rcases hexc with hexc | ⟨s2, hexc⟩ <;>
      simp [mainRun, hinc, hexc, htail, hstdin]
  · intro cfg srch hinc hexc hstdin hfound
    rcases hexc with hexc | ⟨s2, hexc⟩ <;> by_cases htail : cfg.tail <;>
      simp [mainRun, hinc, hexc, htail, hstdin, hfound]
  · intro cfg srch hinc hexc htail hstdin hfound
    rcases hexc with hexc | ⟨s2, hexc⟩ <;>
      simp [mainRun, hinc, hexc, htail, hstdin, hfound]
  · intro cfg srch hinc hexc htail hstdin hfound
    rcases hexc with hexc | ⟨s2, hexc⟩ <;>
      simp [mainRun, hinc, hexc, htail, hstdin, hfound]
  · intro cfg srch hinc hexc htail hok
    rcases hexc with hexc | ⟨s2, hexc⟩ <;> rcases hok with hok | hok <;>
      simp [mainRun, hinc, hexc, htail, hok]
  · intro cfg srch hinc hexc htail hstdin hfound
    rcases hexc with hexc | ⟨s2, hexc⟩ <;>
      simp [mainRun, hinc, hexc, htail, hstdin, hfound]

/-- Witness for the amended C8 at concrete inputs. -/
theorem C8_exit_codes_witness :
    mainRun ⟨RegexCompile.err "bad", none, false, false, true, "log"⟩ =
        (2, some ("Invalid --include regex: " ++ "bad")) ∧
      mainRun ⟨RegexCompile.ok defaultIncludeSearch,
          some (RegexCompile.err "bad2"), false, false, true, "log"⟩ =
        (2, some ("Invalid --exclude regex: " ++ "bad2")) ∧
      mainRun ⟨RegexCompile.ok defaultIncludeSearch, none, true, true, true,
          "log"⟩ =
        (2, some "--tail requires a file path, not stdin ('-').") ∧
      (mainRun ⟨RegexCompile.ok defaultIncludeSearch, none, true, false,
          false, "log"⟩).1 = 1 ∧
      mainRun ⟨RegexCompile.ok defaultIncludeSearch, none, false, false,
          false, "log"⟩ =
        (1, some ("File not found: " ++ "log")) ∧
      mainRun ⟨RegexCompile.ok defaultIncludeSearch, none, true, false,
          false, "log"⟩ = (1, none) ∧
      mainRun ⟨RegexCompile.ok defaultIncludeSearch, none, false, false, true,
          "log"⟩ = (0, none) ∧
      mainRun ⟨RegexCompile.ok defaultIncludeSearch, none, true, false, true,
          "log"⟩ = (0, none) :=
  ⟨C8_exit_codes.1 _ "bad" rfl,
   C8_exit_codes.2.1 _ defaultIncludeSearch "bad2" rfl rfl,
   C8_exit_codes.2.2.1 _ defaultIncludeSearch rfl (Or.inl rfl) rfl rfl,
   C8_exit_codes.2.2.2.1 _ defaultIncludeSearch rfl (Or.inl rfl) rfl rfl,
   C8_exit_codes.2.2.2.2.1 _ defaultIncludeSearch rfl (Or.inl rfl) rfl rfl
     rfl,
   C8_exit_codes.2.2.2.2.2.1 _ defaultIncludeSearch rfl (Or.inl rfl) rfl rfl
     rfl,
   C8_exit_codes.2.2.2.2.2.2.1 _ defaultIncludeSearch rfl (Or.inl rfl) rfl
     (Or.inr rfl),
   C8_exit_codes.2.2.2.2.2.2.2 _ defaultIncludeSearch rfl (Or.inl rfl) rfl
     rfl rfl⟩

end LogViewer
